import Mathlib

/-!
Verification of the route-animator track-to-frame pipeline.

This file gives a shallow embedding of the pipeline implemented in
src/app/page.tsx: GPX timestamp normalization, track cleaning
(elevation smoothing, spike rejection, privacy trimming), temporal
resampling, projection to screen coordinates, frame planning and the
export loop.  Machine floats are modelled as rationals where the code
only performs field operations and comparisons, and as real numbers
where transcendental functions (the haversine formula) are involved.
Timestamps are modelled as integers (milliseconds), as in the code.
-/

namespace RouteAnim

/-- A raw parsed GPX point before timestamp normalization.
`t = none` models an unparseable (NaN) timestamp. -/
structure RawPt where
  lat : ℚ
  lon : ℚ
  ele : Option ℚ
  t : Option ℤ
  deriving DecidableEq, Repr

/-- A track point with a normalized timestamp (type `Pt` in the source). -/
structure Pt where
  lat : ℚ
  lon : ℚ
  ele : Option ℚ
  t : ℤ
  deriving DecidableEq, Repr

/-- Default point used to model JavaScript array indexing. -/
def dummyPt : Pt := ⟨0, 0, none, 0⟩

/-- A latitude/longitude pair, the argument shape of `haversine` in the source. -/
structure LL where
  lat : ℚ
  lon : ℚ
  deriving DecidableEq, Repr

/-- The location of a track point. -/
def Pt.ll (p : Pt) : LL := ⟨p.lat, p.lon⟩

/-- Earth radius in meters (`R` in the source). -/
noncomputable def Rearth : ℝ := 6371000

/-- Degrees to radians (`toRad` in the source). -/
noncomputable def toRad (x : ℝ) : ℝ := x * Real.pi / 180

/-- Haversine great-circle distance, translated from `haversine` in the source. -/
noncomputable def haversine (a b : LL) : ℝ :=
  let dLat := toRad ((b.lat : ℝ) - (a.lat : ℝ))
  let dLon := toRad ((b.lon : ℝ) - (a.lon : ℝ))
  let la1 := toRad (a.lat : ℝ)
  let la2 := toRad (b.lat : ℝ)
  let s := Real.sin (dLat / 2) ^ 2 +
    Real.cos la1 * Real.cos la2 * Real.sin (dLon / 2) ^ 2
  2 * Rearth * Real.arcsin (Real.sqrt s)

theorem haversine_nonneg (a b : LL) : 0 ≤ haversine a b := by
  have h1 : (0:ℝ) ≤ 2 * Rearth := by
    unfold Rearth; norm_num
  exact mul_nonneg h1 (Real.arcsin_nonneg.mpr (Real.sqrt_nonneg _))

/-- Exact value of the haversine distance between two equatorial points
90 degrees of longitude apart. -/
theorem haversine_equator90 (u v : ℚ) (h : ((v:ℝ) - (u:ℝ) = 90) ∨ ((u:ℝ) - (v:ℝ) = 90)) :
    haversine ⟨0, u⟩ ⟨0, v⟩ = 3185500 * Real.pi := by
  have hsq : Real.sin ((((v:ℝ) - (u:ℝ)) * Real.pi / 180) / 2) ^ 2
      = Real.sin (Real.pi / 4) ^ 2 := by
    rcases h with h | h
    · rw [show (((v:ℝ) - (u:ℝ)) * Real.pi / 180) / 2 = Real.pi / 4 by rw [h]; ring]
    · rw [show (((v:ℝ) - (u:ℝ)) * Real.pi / 180) / 2 = -(Real.pi / 4) by
        rw [show ((v:ℝ) - (u:ℝ)) = -90 by linarith]; ring]
      rw [Real.sin_neg, neg_sq]
  have hpi := Real.pi_pos
  have hs4 : (0:ℝ) ≤ Real.sin (Real.pi / 4) := by
    rw [Real.sin_pi_div_four]; positivity
  simp only [haversine, toRad, Rearth]
  push_cast
  rw [hsq]
  rw [show ((0:ℝ) - 0) * Real.pi / 180 / 2 = 0 by ring]
  rw [show (0:ℝ) * Real.pi / 180 = 0 by ring]
  rw [Real.sin_zero, Real.cos_zero]
  rw [show (0:ℝ) ^ 2 + 1 * 1 * Real.sin (Real.pi/4) ^ 2 = Real.sin (Real.pi/4) ^ 2 by ring]
  rw [Real.sqrt_sq hs4]
  rw [Real.arcsin_sin (by linarith) (by linarith)]
  ring

/-! ### Elevation smoothing (`smoothElev`) -/

/-- The elevation values present in the ±`w` index window around `i`
(the inner `j` loop of `smoothElev`). -/
def windowVals (pts : List Pt) (i w : ℕ) : List ℚ :=
  let lo := i - w
  let hi := min (pts.length - 1) (i + w)
  (((List.range (hi + 1 - lo)).map (fun k => pts.getD (lo + k) dummyPt)).filterMap
    (fun p => p.ele))

/-- The `i`-th output point of the elevation-smoothing pass: a point with
an elevation gets the mean of the elevations present in a ±`w` window;
points without elevation are left untouched (body of the `i` loop of
`smoothElev`). -/
def smoothOne (pts : List Pt) (w i : ℕ) : Pt :=
  let p := pts.getD i dummyPt
  match p.ele with
  | none => p
  | some _ =>
    let vals := windowVals pts i w
    { p with ele := if vals.length ≠ 0 then some (vals.sum / (vals.length : ℚ)) else p.ele }

/-- Elevation smoothing pass, translated from `smoothElev` in the source. -/
def smoothElev (pts : List Pt) (w : ℕ := 7) : List Pt :=
  (List.range pts.length).map (smoothOne pts w)

theorem smoothOne_lat (pts : List Pt) (w i : ℕ) :
    (smoothOne pts w i).lat = (pts.getD i dummyPt).lat := by
  simp only [smoothOne]
  rcases h : (pts.getD i dummyPt).ele with _ | e <;> simp

theorem smoothOne_lon (pts : List Pt) (w i : ℕ) :
    (smoothOne pts w i).lon = (pts.getD i dummyPt).lon := by
  simp only [smoothOne]
  rcases h : (pts.getD i dummyPt).ele with _ | e <;> simp

theorem smoothOne_t (pts : List Pt) (w i : ℕ) :
    (smoothOne pts w i).t = (pts.getD i dummyPt).t := by
  simp only [smoothOne]
  rcases h : (pts.getD i dummyPt).ele with _ | e <;> simp

theorem smoothOne_ele_none (pts : List Pt) (w i : ℕ)
    (h : (pts.getD i dummyPt).ele = none) : (smoothOne pts w i).ele = none := by
  simp only [smoothOne]
  rw [h]
  exact h

theorem smoothElev_length (pts : List Pt) (w : ℕ) :
    (smoothElev pts w).length = pts.length := by
  simp [smoothElev]

theorem smoothElev_getD (pts : List Pt) (w : ℕ) (i : ℕ) (h : i < pts.length) :
    (smoothElev pts w).getD i dummyPt = smoothOne pts w i := by
  have h' : i < (smoothElev pts w).length := by
    rw [smoothElev_length]; exact h
  rw [List.getD_eq_getElem _ _ h']
  simp [smoothElev, h]

/-- C9: elevation smoothing returns a sequence of the same length in which
every point keeps its latitude, longitude and timestamp, and a point whose
input elevation is absent keeps it absent. -/
theorem C9_smoothElev_frame (pts : List Pt) (w : ℕ) :
    (smoothElev pts w).length = pts.length ∧
    ∀ i, i < pts.length →
      ((smoothElev pts w).getD i dummyPt).lat = (pts.getD i dummyPt).lat ∧
      ((smoothElev pts w).getD i dummyPt).lon = (pts.getD i dummyPt).lon ∧
      ((smoothElev pts w).getD i dummyPt).t = (pts.getD i dummyPt).t ∧
      ((pts.getD i dummyPt).ele = none →
        ((smoothElev pts w).getD i dummyPt).ele = none) := by
  refine ⟨smoothElev_length pts w, fun i h => ?_⟩
  rw [smoothElev_getD pts w i h]
  exact ⟨smoothOne_lat pts w i, smoothOne_lon pts w i, smoothOne_t pts w i,
    smoothOne_ele_none pts w i⟩

/-- C9 witness at a concrete input. -/
theorem C9_smoothElev_frame_witness :
    (smoothElev [⟨1, 2, some 5, 0⟩, ⟨3, 4, none, 7⟩] 7).length =
      ([⟨1, 2, some 5, 0⟩, ⟨3, 4, none, 7⟩] : List Pt).length ∧
    ((smoothElev [⟨1, 2, some 5, 0⟩, ⟨3, 4, none, 7⟩] 7).getD 1 dummyPt).t =
      (([⟨1, 2, some 5, 0⟩, ⟨3, 4, none, 7⟩] : List Pt).getD 1 dummyPt).t ∧
    ((([⟨1, 2, some 5, 0⟩, ⟨3, 4, none, 7⟩] : List Pt).getD 1 dummyPt).ele = none →
      ((smoothElev [⟨1, 2, some 5, 0⟩, ⟨3, 4, none, 7⟩] 7).getD 1 dummyPt).ele = none) :=
  ⟨(C9_smoothElev_frame [⟨1, 2, some 5, 0⟩, ⟨3, 4, none, 7⟩] 7).1,
   ((C9_smoothElev_frame [⟨1, 2, some 5, 0⟩, ⟨3, 4, none, 7⟩] 7).2 1 (by decide)).2.2.1,
   ((C9_smoothElev_frame [⟨1, 2, some 5, 0⟩, ⟨3, 4, none, 7⟩] 7).2 1 (by decide)).2.2.2⟩

/-! ### GPX parsing: timestamp normalization and deduplication (`parseGpx`) -/

/-- Strict comparison of two raw timestamps, false when either is
unparseable (the NaN-poisoned comparison `pts[i].t > pts[i-1].t`). -/
def rawInc (a b : RawPt) : Bool :=
  match a.t, b.t with
  | some x, some y => decide (x < y)
  | _, _ => false

/-- Whether consecutive raw timestamps are strictly increasing
(the monotonicity scan of `parseGpx`). -/
def chainIncRaw : List RawPt → Bool
  | [] => true
  | [_] => true
  | a :: b :: rest => rawInc a b && chainIncRaw (b :: rest)

/-- The condition under which `parseGpx` synthesizes timestamps: some
timestamp is unparseable, or the sequence is not strictly increasing. -/
def synthCond (pts : List RawPt) : Bool :=
  pts.any (fun p => p.t.isNone) || ! chainIncRaw pts

/-- Synthesized timestamps: a fixed 1-second cadence starting at `now`
(`pts[i].t = base + i * 1000` in the source), preserving point order. -/
def applySynth (pts : List RawPt) (now : ℤ) : List Pt :=
  pts.mapIdx (fun i p => ⟨p.lat, p.lon, p.ele, now + (i : ℤ) * 1000⟩)

/-- Sort by timestamp (`pts.sort((a,b) => a.t - b.t)`); only reached when
every timestamp is parseable. -/
def sortRaw (pts : List RawPt) : List RawPt :=
  pts.mergeSort (fun a b => decide (a.t.getD 0 ≤ b.t.getD 0))

/-- Read off the (parseable) timestamp of a raw point. -/
def extractT (p : RawPt) : Pt := ⟨p.lat, p.lon, p.ele, p.t.getD 0⟩

/-- Deduplication walk, keeping the first point of each run of equal
timestamps; `k` is the last kept point (`out[out.length-1]`). -/
def dedupFrom (k : Pt) : List Pt → List Pt
  | [] => []
  | p :: rest => if p.t = k.t then dedupFrom k rest else p :: dedupFrom p rest

/-- Collapse consecutive points sharing a timestamp (the dedup loop of
`parseGpx`). -/
def dedupT : List Pt → List Pt
  | [] => []
  | p :: rest => p :: dedupFrom p rest

/-- Timestamp normalization of `parseGpx`: synthesize or sort, then dedup. -/
def normalizePts (pts : List RawPt) (now : ℤ) : List Pt :=
  let timed := if synthCond pts then applySynth pts now else (sortRaw pts).map extractT
  dedupT timed

/-- Model of `parseGpx` from the extracted point nodes on: use trackpoints,
else routepoints, else fail with the empty sequence. -/
def parseGpxModel (trkpts rtepts : List RawPt) (now : ℤ) : List Pt :=
  let nodes := if trkpts.isEmpty then rtepts else trkpts
  if nodes.isEmpty then [] else normalizePts nodes now

theorem dedupFrom_of_chain (l : List Pt) :
    ∀ k : Pt, List.Chain' (fun a b => a.t < b.t) (k :: l) → dedupFrom k l = l := by
  induction l with
  | nil => intro k _; rfl
  | cons p rest ih =>
    intro k hk
    rw [List.chain'_cons] at hk
    have hne : ¬ p.t = k.t := by
      intro he; rw [he] at hk; exact lt_irrefl _ hk.1
    simp only [dedupFrom, if_neg hne]
    rw [ih p hk.2]

theorem dedupT_of_chain (l : List Pt)
    (h : List.Chain' (fun a b => a.t < b.t) l) : dedupT l = l := by
  cases l with
  | nil => rfl
  | cons p rest => simp only [dedupT]; rw [dedupFrom_of_chain rest p h]

theorem chain_dedupFrom (l : List Pt) :
    ∀ k : Pt, List.Chain' (fun a b => a.t ≤ b.t) (k :: l) →
      List.Chain' (fun a b => a.t < b.t) (k :: dedupFrom k l) := by
  induction l with
  | nil => intro k _; simp [dedupFrom]
  | cons p rest ih =>
    intro k hk
    rw [List.chain'_cons] at hk
    by_cases he : p.t = k.t
    · simp only [dedupFrom, if_pos he]
      apply ih k
      rw [List.chain'_cons'] at hk ⊢
      refine ⟨fun y hy => ?_, hk.2.2⟩
      have := hk.2.1 y hy
      rw [← he]; exact this
    · simp only [dedupFrom, if_neg he]
      rw [List.chain'_cons]
      refine ⟨lt_of_le_of_ne hk.1 (fun hx => he hx.symm), ih p hk.2⟩

theorem chain_dedupT (l : List Pt)
    (h : List.Chain' (fun a b => a.t ≤ b.t) l) :
    List.Chain' (fun a b => a.t < b.t) (dedupT l) := by
  cases l with
  | nil => simp [dedupT]
  | cons p rest => exact chain_dedupFrom rest p h

theorem chain_applySynth (pts : List RawPt) (now : ℤ) :
    List.Chain' (fun a b => a.t < b.t) (applySynth pts now) := by
  rw [List.chain'_iff_get]
  intro i h
  have hlen : (applySynth pts now).length = pts.length := by
    simp [applySynth]
  have h1 : i < pts.length := by omega
  have h2 : i + 1 < pts.length := by omega
  have e1 := List.get_mapIdx pts
    (fun i p => (⟨p.lat, p.lon, p.ele, now + (i : ℤ) * 1000⟩ : Pt)) i h1
  have e2 := List.get_mapIdx pts
    (fun i p => (⟨p.lat, p.lon, p.ele, now + (i : ℤ) * 1000⟩ : Pt)) (i + 1) h2
  simp only [applySynth]
  rw [e1, e2]
  simp only []
  have : (i : ℤ) * 1000 < ((i : ℤ) + 1) * 1000 := by linarith
  push_cast
  linarith

theorem pairwise_sortRaw (pts : List RawPt) :
    List.Pairwise (fun a b : RawPt => decide (a.t.getD 0 ≤ b.t.getD 0) = true)
      (sortRaw pts) := by
  unfold sortRaw
  exact @List.sorted_mergeSort RawPt
    (fun a b => decide (a.t.getD 0 ≤ b.t.getD 0))
    (fun a b c h1 h2 =>
      decide_eq_true (le_trans (of_decide_eq_true h1) (of_decide_eq_true h2)))
    (fun a b => by
      rcases le_total (a.t.getD 0) (b.t.getD 0) with h | h <;> simp [h])
    pts

theorem chain_le_sorted (pts : List RawPt) :
    List.Chain' (fun a b : Pt => a.t ≤ b.t) ((sortRaw pts).map extractT) := by
  apply List.Pairwise.chain'
  apply List.Pairwise.map (R := fun a b : RawPt => decide (a.t.getD 0 ≤ b.t.getD 0) = true)
  · intro a b hab
    simpa [extractT] using of_decide_eq_true hab
  · exact pairwise_sortRaw pts

/-- C2: `parseGpx` timestamp normalization.  If any timestamp is
unparseable or the timestamps are not strictly increasing in input order,
every timestamp is replaced by a synthesized 1-second cadence starting at
the current wall-clock time `now`, preserving original order; otherwise
the points are sorted by timestamp and consecutive duplicates collapsed.
In either case the result has strictly increasing timestamps, hence at
most one point per distinct timestamp. -/
theorem C2_normalize_timestamps (pts : List RawPt) (now : ℤ) :
    (synthCond pts = true → normalizePts pts now = applySynth pts now) ∧
    (synthCond pts = false →
      normalizePts pts now = dedupT ((sortRaw pts).map extractT)) ∧
    List.Chain' (fun a b => a.t < b.t) (normalizePts pts now) ∧
    List.Pairwise (fun a b => a.t ≠ b.t) (normalizePts pts now) := by
  have hchain : List.Chain' (fun a b => a.t < b.t) (normalizePts pts now) := by
    by_cases h : synthCond pts = true
    · simp only [normalizePts, if_pos h]
      rw [dedupT_of_chain _ (chain_applySynth pts now)]
      exact chain_applySynth pts now
    · simp only [normalizePts, if_neg h]
      exact chain_dedupT _ (chain_le_sorted pts)
  have hpair : List.Pairwise (fun a b => a.t ≠ b.t) (normalizePts pts now) := by
    haveI : IsTrans Pt (fun a b => a.t < b.t) := ⟨fun _ _ _ h1 h2 => lt_trans h1 h2⟩
    have := List.chain'_iff_pairwise.mp hchain
    exact this.imp (fun h => ne_of_lt h)
  refine ⟨fun h => ?_, fun h => ?_, hchain, hpair⟩
  · simp only [normalizePts, if_pos h]
    exact dedupT_of_chain _ (chain_applySynth pts now)
  · simp [normalizePts, h]

/-- C2 witness: a track with one unparseable timestamp is synthesized. -/
theorem C2_normalize_timestamps_witness :
    normalizePts [⟨0, 0, none, none⟩, ⟨1, 1, none, some 5⟩] 100 =
      applySynth [⟨0, 0, none, none⟩, ⟨1, 1, none, some 5⟩] 100 ∧
    List.Chain' (fun a b => a.t < b.t)
      (normalizePts [⟨0, 0, none, none⟩, ⟨1, 1, none, some 5⟩] 100) :=
  ⟨(C2_normalize_timestamps [⟨0, 0, none, none⟩, ⟨1, 1, none, some 5⟩] 100).1 (by decide),
   (C2_normalize_timestamps [⟨0, 0, none, none⟩, ⟨1, 1, none, some 5⟩] 100).2.2.1⟩

/-! ### Spike rejection (`removeSpikes`) -/

/-- Total haversine length of a track (the `totalDist` reduce). -/
noncomputable def totalDistOf (pts : List Pt) : ℝ :=
  (List.zipWith (fun a b => haversine a.ll b.ll) pts pts.tail).sum

/-- Whole-track average speed in m/s (`avgMS` in the source). -/
noncomputable def avgSpeed (pts : List Pt) : ℝ :=
  let totalTime : ℝ := (((pts.getLast?.getD dummyPt).t - (pts.headD dummyPt).t : ℤ) : ℝ) / 1000
  if 0 < totalTime then totalDistOf pts / totalTime else 0

/-- The active speed cap: the caller hint if given, else 20 m/s for an
average speed above 4 m/s (presumed cycling), else 9 m/s. -/
noncomputable def activeCap (pts : List Pt) (hint : Option ℝ) : ℝ :=
  hint.getD (if 4 < avgSpeed pts then 20 else 9)

/-- Speed between two points: haversine distance over the timestamp
difference in seconds. -/
noncomputable def segSpeed (a b : Pt) : ℝ :=
  haversine a.ll b.ll / (((b.t - a.t : ℤ) : ℝ) / 1000)

/-- The spike-rejection walk: keep a point only if its speed relative to
the last kept point does not exceed the cap (the `i` loop of
`removeSpikes`; `prev` is the last kept point `out[out.length-1]`). -/
noncomputable def spikeLoop (cap : ℝ) : Pt → List Pt → List Pt
  | _, [] => []
  | prev, cur :: rest =>
    let dt : ℝ := ((cur.t - prev.t : ℤ) : ℝ) / 1000
    let d := haversine prev.ll cur.ll
    let v := if 0 < dt then d / dt else 0
    if v ≤ cap then cur :: spikeLoop cap cur rest else spikeLoop cap prev rest

/-- Spike rejection pass, translated from `removeSpikes` in the source:
skipped entirely below 10 points, otherwise the first point is always
kept and the walk filters the rest. -/
noncomputable def removeSpikes (pts : List Pt) (hint : Option ℝ) : List Pt :=
  if pts.length < 10 then pts
  else match pts with
    | [] => []
    | p0 :: rest => p0 :: spikeLoop (activeCap (p0 :: rest) hint) p0 rest

theorem spikeLoop_sublist (cap : ℝ) (l : List Pt) :
    ∀ prev, (spikeLoop cap prev l).Sublist l := by
  induction l with
  | nil => intro prev; simp [spikeLoop]
  | cons cur rest ih =>
    intro prev
    simp only [spikeLoop]
    split
    · split
      · exact (ih cur).cons₂ cur
      · exact (ih prev).cons cur
    · split
      · exact (ih cur).cons₂ cur
      · exact (ih prev).cons cur

theorem removeSpikes_sublist (pts : List Pt) (hint : Option ℝ) :
    (removeSpikes pts hint).Sublist pts := by
  unfold removeSpikes
  split
  · exact List.Sublist.refl pts
  · split
    · exact List.Sublist.refl _
    · exact (spikeLoop_sublist _ _ _).cons₂ _

theorem spikeLoop_chain (cap : ℝ) (l : List Pt) :
    ∀ prev, List.Pairwise (fun a b : Pt => a.t < b.t) (prev :: l) →
      List.Chain' (fun a b => segSpeed a b ≤ cap) (prev :: spikeLoop cap prev l) := by
  induction l with
  | nil => intro prev _; simp [spikeLoop]
  | cons cur rest ih =>
    intro prev hp
    have hlt : prev.t < cur.t := (List.pairwise_cons.mp hp).1 cur (by simp)
    have hdt : (0:ℝ) < ((cur.t - prev.t : ℤ) : ℝ) / 1000 := by
      have : (0:ℤ) < cur.t - prev.t := by omega
      have : (0:ℝ) < ((cur.t - prev.t : ℤ) : ℝ) := by exact_mod_cast this
      linarith
    simp only [spikeLoop, if_pos hdt]
    split
    · next hkeep =>
      rw [List.chain'_cons]
      constructor
      · exact hkeep
      · exact ih cur (hp.sublist ((List.Sublist.refl (cur :: rest)).cons prev))
    · next hrej =>
      apply ih prev
      refine hp.sublist ?_
      exact ((List.Sublist.refl rest).cons cur).cons₂ prev

/-- C3: with at least 10 points and strictly increasing timestamps,
spike rejection returns a subsequence of the input starting at the first
input point, and every pair of consecutive kept points respects the
active cap (hint, else 20 m/s when the average speed exceeds 4 m/s,
else 9 m/s). -/
theorem C3_removeSpikes_cap (pts : List Pt) (hint : Option ℝ)
    (hlen : 10 ≤ pts.length)
    (hmono : List.Chain' (fun a b : Pt => a.t < b.t) pts) :
    (removeSpikes pts hint).Sublist pts ∧
    (removeSpikes pts hint).head? = pts.head? ∧
    List.Chain' (fun a b => segSpeed a b ≤ activeCap pts hint)
      (removeSpikes pts hint) := by
  refine ⟨removeSpikes_sublist pts hint, ?_, ?_⟩
  · unfold removeSpikes
    split
    · rfl
    · split
      · rfl
      · rfl
  · cases pts with
    | nil => simp at hlen
    | cons p0 rest =>
      have hguard : ¬ ((p0 :: rest).length < 10) := by omega
      unfold removeSpikes
      rw [if_neg hguard]
      haveI : IsTrans Pt (fun a b => a.t < b.t) := ⟨fun _ _ _ h1 h2 => lt_trans h1 h2⟩
      exact spikeLoop_chain _ rest p0 (List.chain'_iff_pairwise.mp hmono)

/-- A concrete 10-point strictly timed track. -/
def tenTrack : List Pt :=
  [⟨0, 0, none, 0⟩, ⟨0, 0, none, 1000⟩, ⟨0, 0, none, 2000⟩, ⟨0, 0, none, 3000⟩,
   ⟨0, 0, none, 4000⟩, ⟨0, 0, none, 5000⟩, ⟨0, 0, none, 6000⟩, ⟨0, 0, none, 7000⟩,
   ⟨0, 0, none, 8000⟩, ⟨0, 0, none, 9000⟩]

/-- C3 witness: a 10-point strictly timed track. -/
theorem C3_removeSpikes_cap_witness :
    10 ≤ tenTrack.length ∧
    List.Chain' (fun a b : Pt => a.t < b.t) tenTrack ∧
    List.Chain' (fun a b => segSpeed a b ≤ activeCap tenTrack none)
      (removeSpikes tenTrack none) :=
  ⟨by decide, by norm_num [tenTrack, List.chain'_cons],
   (C3_removeSpikes_cap tenTrack none (by decide)
     (by norm_num [tenTrack, List.chain'_cons])).2.2⟩

/-! ### Privacy trimming (`trimPrivacy`) -/

/-- Accumulating distance walk: the first index (counting from `i`) at
which the running sum reaches `m` (the break of the trim loops). -/
noncomputable def firstReach (m : ℝ) : ℝ → ℕ → List ℝ → Option ℕ
  | _, _, [] => none
  | acc, i, d :: rest => if m ≤ acc + d then some i else firstReach m (acc + d) (i + 1) rest

/-- Consecutive haversine distances walked forward
(`haversine(points[i-1], points[i])`). -/
noncomputable def segDists (pts : List Pt) : List ℝ :=
  List.zipWith (fun a b => haversine a.ll b.ll) pts pts.tail

/-- Consecutive haversine distances walked backward from the end
(`haversine(points[i], points[i-1])` for `i = n-1` down to `1`). -/
noncomputable def segDistsBack (pts : List Pt) : List ℝ :=
  (List.zipWith (fun a b => haversine a.ll b.ll) pts.tail pts).reverse

/-- Privacy trimming pass, translated from `trimPrivacy` in the source:
cut the first and last `meters` of accumulated distance, returning the
inclusive slice between the two cut indices. -/
noncomputable def trimPrivacy (pts : List Pt) (meters : ℝ) : List Pt :=
  if pts.length < 2 ∨ meters ≤ 0 then pts
  else
    let startIdx := (firstReach meters 0 1 (segDists pts)).getD 0
    let endIdx :=
      match firstReach meters 0 1 (segDistsBack pts) with
      | some c => pts.length - c
      | none => pts.length - 1
    (pts.drop startIdx).take (endIdx + 1 - startIdx)

theorem pairwiseT_of_chain (l : List Pt)
    (h : List.Chain' (fun a b : Pt => a.t < b.t) l) :
    List.Pairwise (fun a b : Pt => a.t < b.t) l := by
  haveI : IsTrans Pt (fun a b : Pt => a.t < b.t) := ⟨fun _ _ _ h1 h2 => lt_trans h1 h2⟩
  exact List.chain'_iff_pairwise.mp h

theorem chain_of_sublistT (l l' : List Pt) (hs : l.Sublist l')
    (h : List.Chain' (fun a b : Pt => a.t < b.t) l') :
    List.Chain' (fun a b : Pt => a.t < b.t) l :=
  ((pairwiseT_of_chain l' h).sublist hs).chain'

theorem trimPrivacy_sublist (pts : List Pt) (m : ℝ) :
    (trimPrivacy pts m).Sublist pts := by
  unfold trimPrivacy
  split
  · exact List.Sublist.refl pts
  · exact (List.take_sublist _ _).trans (List.drop_sublist _ _)

theorem chain_smoothElev (pts : List Pt) (w : ℕ)
    (h : List.Chain' (fun a b : Pt => a.t < b.t) pts) :
    List.Chain' (fun a b : Pt => a.t < b.t) (smoothElev pts w) := by
  rw [List.chain'_iff_get] at h ⊢
  intro i hi
  simp only [smoothElev, List.length_map, List.length_range] at hi
  have h1 : i < pts.length := by omega
  have h2 : i + 1 < pts.length := by omega
  simp only [smoothElev, List.get_eq_getElem, List.getElem_map, List.getElem_range]
  rw [smoothOne_t, smoothOne_t]
  rw [List.getD_eq_getElem pts dummyPt h1, List.getD_eq_getElem pts dummyPt h2]
  have := h i (by omega)
  simp only [List.get_eq_getElem] at this
  exact this

/-- C6 (amended): every cleaning pass preserves strictly increasing
timestamps; elevation smoothing and spike rejection also preserve
non-emptiness, while privacy trimming may return an empty sequence. -/
theorem C6_cleaning_passes (pts : List Pt) (m : ℝ) (hint : Option ℝ) (w : ℕ)
    (hne : pts ≠ [])
    (hmono : List.Chain' (fun a b : Pt => a.t < b.t) pts) :
    (smoothElev pts w ≠ [] ∧
      List.Chain' (fun a b : Pt => a.t < b.t) (smoothElev pts w)) ∧
    (removeSpikes pts hint ≠ [] ∧
      List.Chain' (fun a b : Pt => a.t < b.t) (removeSpikes pts hint)) ∧
    List.Chain' (fun a b : Pt => a.t < b.t) (trimPrivacy pts m) := by
  refine ⟨⟨?_, chain_smoothElev pts w hmono⟩, ⟨?_, ?_⟩, ?_⟩
  · intro he
    apply hne
    have := smoothElev_length pts w
    rw [he] at this
    exact List.length_eq_zero.mp this.symm
  · cases pts with
    | nil => exact absurd rfl hne
    | cons p0 rest =>
      simp only [removeSpikes]
      split
      · simp
      · simp
  · exact chain_of_sublistT _ _ (removeSpikes_sublist pts hint) hmono
  · exact chain_of_sublistT _ _ (trimPrivacy_sublist pts m) hmono

/-- C6 counterexample: on a three-point equatorial track of total length
6371000·π meters (two 90°-of-longitude hops) with strictly increasing
timestamps, a trim distance of 15000000 meters makes the forward cut
index (2) pass the backward cut index (1), and `trimPrivacy` returns the
empty sequence, so the non-emptiness half of the claimed invariant fails. -/
theorem C6_counterexample_trim_empty :
    ([(⟨0,0,none,0⟩ : Pt), ⟨0,90,none,1000⟩, ⟨0,180,none,2000⟩] ≠ []) ∧
    List.Chain' (fun a b : Pt => a.t < b.t)
      [(⟨0,0,none,0⟩ : Pt), ⟨0,90,none,1000⟩, ⟨0,180,none,2000⟩] ∧
    trimPrivacy [(⟨0,0,none,0⟩ : Pt), ⟨0,90,none,1000⟩, ⟨0,180,none,2000⟩] 15000000 = [] := by
  refine ⟨by simp, by norm_num [List.chain'_cons], ?_⟩
  have hπ1 := Real.pi_lt_d2
  have hπ2 := Real.pi_gt_d6
  have hA := haversine_equator90 0 90 (Or.inl (by norm_num))
  have hB := haversine_equator90 90 180 (Or.inl (by norm_num))
  have hC := haversine_equator90 90 0 (Or.inr (by norm_num))
  have hD := haversine_equator90 180 90 (Or.inr (by norm_num))
  have h1 : ¬ ((15000000:ℝ) ≤ 0 + 3185500 * Real.pi) := by nlinarith
  have h2 : (15000000:ℝ) ≤ (0 + 3185500 * Real.pi) + 3185500 * Real.pi := by nlinarith
  have hg : ¬ (([(⟨0,0,none,0⟩ : Pt), ⟨0,90,none,1000⟩, ⟨0,180,none,2000⟩].length < 2) ∨
      ((15000000:ℝ) ≤ 0)) := by norm_num
  rw [trimPrivacy, if_neg hg]
  simp only [segDists, segDistsBack, Pt.ll, List.tail_cons, List.zipWith_cons_cons,
    List.zipWith_nil_right, List.zipWith_nil_left, List.reverse_cons, List.reverse_nil,
    List.nil_append, List.cons_append, List.singleton_append]
  rw [hA, hB, hC, hD]
  rw [firstReach, if_neg h1, firstReach, if_pos h2]
  simp

/-- C6 witness: trimming a two-point track. -/
theorem C6_cleaning_passes_witness :
    (([(⟨0,0,none,0⟩ : Pt), ⟨0,0,none,1000⟩] : List Pt) ≠ []) ∧
    List.Chain' (fun a b : Pt => a.t < b.t)
      [(⟨0,0,none,0⟩ : Pt), ⟨0,0,none,1000⟩] ∧
    List.Chain' (fun a b : Pt => a.t < b.t)
      (trimPrivacy [(⟨0,0,none,0⟩ : Pt), ⟨0,0,none,1000⟩] 5) :=
  ⟨by simp, by norm_num [List.chain'_cons],
   (C6_cleaning_passes [(⟨0,0,none,0⟩ : Pt), ⟨0,0,none,1000⟩] 5 none 7
     (by simp) (by norm_num [List.chain'_cons])).2.2⟩

/-! ### Temporal resampling (`resample`) -/

/-- A resampled output sample (type `ProjPt` in the source): interpolated
position, timestamp, cumulative distance `d` and instantaneous pace. -/
structure ProjPt where
  x : ℚ
  y : ℚ
  ele : Option ℚ
  t : ℚ
  d : ℝ
  pace : Option ℝ

/-- JavaScript `Math.round`: round half toward positive infinity. -/
def jsRound (q : ℚ) : ℤ := ⌊q + 1 / 2⌋

/-- The monotone bracketing cursor
(`while (j < points.length-1 && points[j+1].t < t) j++`). -/
def advance (pts : List Pt) (t : ℚ) (j : ℕ) : ℕ :=
  if h : j + 1 < pts.length ∧ (((pts.getD (j + 1) dummyPt).t : ℚ) < t) then
    advance pts t (j + 1)
  else j
termination_by pts.length - j
decreasing_by
  have := h.1
  omega

/-- Distance from the previous output sample, zero for the first output
sample (`i > 0` guard; `prev` is `(prev.x, prev.y)`, and the source calls
`haversine({lat: prev.y, lon: prev.x}, {lat, lon})`). -/
noncomputable def stepDist (prev : Option (ℚ × ℚ)) (lat lon : ℚ) : ℝ :=
  match prev with
  | none => 0
  | some pv => haversine ⟨pv.2, pv.1⟩ ⟨lat, lon⟩

theorem stepDist_nonneg (prev : Option (ℚ × ℚ)) (lat lon : ℚ) :
    0 ≤ stepDist prev lat lon := by
  cases prev with
  | none => exact le_refl 0
  | some pv => exact haversine_nonneg _ _

/-- Instantaneous pace of an output sample: adjacent-output-sample
distance over the fixed inter-frame time step, `none` for the first
sample and for zero implied speed. -/
noncomputable def stepPace (prev : Option (ℚ × ℚ)) (lat lon : ℚ)
    (totalTime : ℤ) (frames : ℕ) : Option ℝ :=
  match prev with
  | none => none
  | some pv =>
    let dt : ℚ := (totalTime : ℚ) / ((frames : ℚ) - 1)
    let mps : ℝ := haversine ⟨pv.2, pv.1⟩ ⟨lat, lon⟩ / ((dt : ℝ) / 1000)
    if 0 < mps then some ((1000 / mps) / 60) else none

/-- The resampling loop (`for i in [0, frames)`), with the loop state
(cursor `j`, accumulated distance `cum`, previous output position)
passed explicitly. -/
noncomputable def resampleAux (pts : List Pt) (start totalTime : ℤ) (frames : ℕ) :
    ℕ → ℕ → ℝ → Option (ℚ × ℚ) → List ProjPt
  | i, j, cum, prev =>
    if hi : i < frames then
      let t : ℚ := (start : ℚ) + ((i : ℚ) / ((frames : ℚ) - 1)) * (totalTime : ℚ)
      let j2 := advance pts t j
      let a1 := pts.getD j2 dummyPt
      let a2 := pts.getD (j2 + 1) a1
      let span : ℤ := max 1 (a2.t - a1.t)
      let frac : ℚ := min 1 (max 0 ((t - (a1.t : ℚ)) / (span : ℚ)))
      let lat := a1.lat + frac * (a2.lat - a1.lat)
      let lon := a1.lon + frac * (a2.lon - a1.lon)
      let ele : Option ℚ :=
        match a1.ele, a2.ele with
        | some e1, some e2 => some (e1 + frac * (e2 - e1))
        | _, _ => none
      let cum2 := cum + stepDist prev lat lon
      ⟨lon, lat, ele, t, cum2, stepPace prev lat lon totalTime frames⟩ ::
        resampleAux pts start totalTime frames (i + 1) j2 cum2 (some (lon, lat))
    else []
termination_by i => frames - i
decreasing_by omega

/-- Temporal resampling, translated from `resample` in the source. -/
noncomputable def resample (pts : List Pt) (fps durationSec : ℚ) : List ProjPt :=
  match pts with
  | [] => []
  | p0 :: _ =>
    let start := p0.t
    let endT := (pts.getLast?.getD dummyPt).t
    let totalTime : ℤ := max 1 (endT - start)
    let frames : ℕ := max 2 (jsRound (fps * durationSec)).toNat
    resampleAux pts start totalTime frames 0 0 0 none

theorem resampleAux_length (pts : List Pt) (s T : ℤ) (frames : ℕ) :
    ∀ k i j cum prev, frames - i = k →
      (resampleAux pts s T frames i j cum prev).length = k := by
  intro k
  induction k with
  | zero =>
    intro i j cum prev hk
    rw [resampleAux]
    have hni : ¬ i < frames := by omega
    rw [dif_neg hni]
    rfl
  | succ n ih =>
    intro i j cum prev hk
    rw [resampleAux]
    have hi : i < frames := by omega
    rw [dif_pos hi]
    simp only [List.length_cons]
    rw [ih (i + 1) _ _ _ (by omega)]

theorem resampleAux_chain (pts : List Pt) (s T : ℤ) (frames : ℕ) :
    ∀ k i j cum prev, frames - i = k →
      List.Chain' (fun a b : ProjPt => a.d ≤ b.d)
        (resampleAux pts s T frames i j cum prev) ∧
      ∀ p ∈ resampleAux pts s T frames i j cum prev, cum ≤ p.d := by
  intro k
  induction k with
  | zero =>
    intro i j cum prev hk
    rw [resampleAux]
    have hni : ¬ i < frames := by omega
    rw [dif_neg hni]
    exact ⟨List.chain'_nil, by simp⟩
  | succ n ih =>
    intro i j cum prev hk
    rw [resampleAux]
    have hi : i < frames := by omega
    rw [dif_pos hi]
    simp only []
    set t : ℚ := (s : ℚ) + ((i : ℚ) / ((frames : ℚ) - 1)) * (T : ℚ) with ht
    set j2 := advance pts t j with hj2
    set a1 := pts.getD j2 dummyPt with ha1
    set a2 := pts.getD (j2 + 1) a1 with ha2
    set frac : ℚ := min 1 (max 0 ((t - (a1.t : ℚ)) / ((max 1 (a2.t - a1.t) : ℤ) : ℚ))) with hfrac
    set lat := a1.lat + frac * (a2.lat - a1.lat) with hlat
    set lon := a1.lon + frac * (a2.lon - a1.lon) with hlon
    have hd : 0 ≤ stepDist prev lat lon := stepDist_nonneg prev lat lon
    have hcum : cum ≤ cum + stepDist prev lat lon := le_add_of_nonneg_right hd
    obtain ⟨ihc, ihm⟩ := ih (i + 1) j2 (cum + stepDist prev lat lon) (some (lon, lat)) (by omega)
    constructor
    · rw [List.chain'_cons']
      refine ⟨fun y hy => ?_, ihc⟩
      exact ihm y (List.mem_of_mem_head? hy)
    · intro p hp
      rcases List.mem_cons.mp hp with h | h
      · rw [h]
        exact hcum
      · exact le_trans hcum (ihm p h)

/-- C1: on a non-empty cleaned track, resampling produces exactly
max(2, round(fps · durationSec)) samples, and the cumulative distance
field `d` is non-decreasing across the output sequence. -/
theorem C1_resample_length_monotone (pts : List Pt) (fps durationSec : ℚ)
    (hne : pts ≠ []) :
    (resample pts fps durationSec).length = max 2 (jsRound (fps * durationSec)).toNat ∧
    List.Chain' (fun a b : ProjPt => a.d ≤ b.d) (resample pts fps durationSec) := by
  cases pts with
  | nil => exact absurd rfl hne
  | cons p0 rest =>
    simp only [resample]
    constructor
    · rw [resampleAux_length _ _ _ _ (max 2 (jsRound (fps * durationSec)).toNat) 0 _ _ _ (by omega)]
    · exact (resampleAux_chain _ _ _ _ (max 2 (jsRound (fps * durationSec)).toNat) 0 _ _ _ (by omega)).1

/-- C1 witness: a one-point track resampled at 1 fps for 3 seconds. -/
theorem C1_resample_length_monotone_witness :
    (resample [(⟨0, 0, none, 0⟩ : Pt)] 1 3).length = max 2 (jsRound (1 * 3)).toNat ∧
    List.Chain' (fun a b : ProjPt => a.d ≤ b.d) (resample [(⟨0, 0, none, 0⟩ : Pt)] 1 3) :=
  C1_resample_length_monotone [(⟨0, 0, none, 0⟩ : Pt)] 1 3 (by simp)

/-! ### Projector (`makeProjector`) -/

/-- Four-sided padding of the drawable area. -/
structure Pads where
  left : ℚ
  right : ℚ
  top : ℚ
  bottom : ℚ

/-- The projector record returned by `makeProjector`: fitted scale,
route and free extents, and the point mapping `toXY`. -/
structure Projector where
  scale : ℚ
  routeW : ℚ
  routeH : ℚ
  freeW : ℚ
  freeH : ℚ
  toXY : ℚ × ℚ → ℚ × ℚ

/-- Projection to screen coordinates, translated from `makeProjector` in
the source: bounding box, minimum-epsilon extents, aspect-fit scale times
zoom (`zoom || 1`), centering, pan offset, and inverted vertical axis. -/
def makeProjector (samples : List ProjPt) (width height : ℚ) (pads : Pads)
    (pan : ℚ × ℚ) (zoom : ℚ) : Projector :=
  match samples with
  | [] => ⟨1, 0, 0, width, height, fun _ => (width / 2, height / 2)⟩
  | s0 :: rest =>
    let xs := (s0 :: rest).map (fun p => p.x)
    let ys := (s0 :: rest).map (fun p => p.y)
    let minX := xs.foldl min s0.x
    let maxX := xs.foldl max s0.x
    let minY := ys.foldl min s0.y
    let maxY := ys.foldl max s0.y
    let routeW := max (1 / 1000000000) (maxX - minX)
    let routeH := max (1 / 1000000000) (maxY - minY)
    let freeW := max 1 (width - pads.left - pads.right)
    let freeH := max 1 (height - pads.top - pads.bottom)
    let base := min (freeW / routeW) (freeH / routeH)
    let scale := base * (if zoom = 0 then 1 else zoom)
    let centerX := (freeW - routeW * scale) / 2
    let centerY := (freeH - routeH * scale) / 2
    let offsetX := pads.left + centerX + pan.1
    let offsetY := pads.top + centerY + pan.2
    ⟨scale, routeW, routeH, freeW, freeH,
      fun p => (offsetX + (p.1 - minX) * scale, offsetY + (maxY - p.2) * scale)⟩

theorem foldl_min_le_init (l : List ℚ) : ∀ a : ℚ, l.foldl min a ≤ a := by
  induction l with
  | nil => intro a; exact le_refl a
  | cons x xs ih => intro a; exact le_trans (ih (min a x)) (min_le_left a x)

theorem foldl_min_le_mem (l : List ℚ) : ∀ a b, b ∈ l → l.foldl min a ≤ b := by
  induction l with
  | nil => intro a b hb; exact absurd hb (List.not_mem_nil b)
  | cons x xs ih =>
    intro a b hb
    rcases List.mem_cons.mp hb with h | h
    · subst h
      exact le_trans (foldl_min_le_init xs (min a b)) (min_le_right a b)
    · exact ih (min a x) b h

theorem le_foldl_max_init (l : List ℚ) : ∀ a : ℚ, a ≤ l.foldl max a := by
  induction l with
  | nil => intro a; exact le_refl a
  | cons x xs ih => intro a; exact le_trans (le_max_left a x) (ih (max a x))

theorem le_foldl_max_mem (l : List ℚ) : ∀ a b, b ∈ l → b ≤ l.foldl max a := by
  induction l with
  | nil => intro a b hb; exact absurd hb (List.not_mem_nil b)
  | cons x xs ih =>
    intro a b hb
    rcases List.mem_cons.mp hb with h | h
    · subst h
      exact le_trans (le_max_right a b) (le_foldl_max_init xs (max a b))
    · exact ih (max a x) b h

/-- C5 (amended): with zoom 1, no pan, and at least one pixel of free
space in each dimension, every sample maps into the closed padded
rectangle (the extreme samples land exactly on its boundary, so strict
containment does not hold). -/
theorem C5_projector_bounds (samples : List ProjPt) (width height : ℚ) (pads : Pads)
    (hne : samples ≠ [])
    (hW : 1 ≤ width - pads.left - pads.right)
    (hH : 1 ≤ height - pads.top - pads.bottom) :
    ∀ s ∈ samples,
      pads.left ≤ ((makeProjector samples width height pads (0, 0) 1).toXY (s.x, s.y)).1 ∧
      ((makeProjector samples width height pads (0, 0) 1).toXY (s.x, s.y)).1 ≤ width - pads.right ∧
      pads.top ≤ ((makeProjector samples width height pads (0, 0) 1).toXY (s.x, s.y)).2 ∧
      ((makeProjector samples width height pads (0, 0) 1).toXY (s.x, s.y)).2 ≤ height - pads.bottom := by
  cases samples with
  | nil => exact absurd rfl hne
  | cons s0 rest =>
    intro s hs
    simp only [makeProjector, if_neg (one_ne_zero (α := ℚ))]
    set mnX := (((s0 :: rest).map fun p => p.x).foldl min s0.x) with hmnX
    set mxX := (((s0 :: rest).map fun p => p.x).foldl max s0.x) with hmxX
    set mnY := (((s0 :: rest).map fun p => p.y).foldl min s0.y) with hmnY
    set mxY := (((s0 :: rest).map fun p => p.y).foldl max s0.y) with hmxY
    set rW := max (1 / 1000000000 : ℚ) (mxX - mnX) with hrW
    set rH := max (1 / 1000000000 : ℚ) (mxY - mnY) with hrH
    have hfW : max 1 (width - pads.left - pads.right) = width - pads.left - pads.right :=
      max_eq_right hW
    have hfH : max 1 (height - pads.top - pads.bottom) = height - pads.top - pads.bottom :=
      max_eq_right hH
    rw [hfW, hfH]
    set fW := width - pads.left - pads.right with hfW2
    set fH := height - pads.top - pads.bottom with hfH2
    set sc := min (fW / rW) (fH / rH) * 1 with hsc
    have hsx : s.x ∈ (s0 :: rest).map (fun p => p.x) := List.mem_map_of_mem _ hs
    have hsy : s.y ∈ (s0 :: rest).map (fun p => p.y) := List.mem_map_of_mem _ hs
    have hminX : mnX ≤ s.x := foldl_min_le_mem _ _ _ hsx
    have hmaxX : s.x ≤ mxX := le_foldl_max_mem _ _ _ hsx
    have hminY : mnY ≤ s.y := foldl_min_le_mem _ _ _ hsy
    have hmaxY : s.y ≤ mxY := le_foldl_max_mem _ _ _ hsy
    have hrWpos : (0:ℚ) < rW := lt_of_lt_of_le (by norm_num) (le_max_left _ _)
    have hrHpos : (0:ℚ) < rH := lt_of_lt_of_le (by norm_num) (le_max_left _ _)
    have hrWge : mxX - mnX ≤ rW := le_max_right _ _
    have hrHge : mxY - mnY ≤ rH := le_max_right _ _
    have hfWpos : (0:ℚ) < fW := by rw [hfW2]; linarith
    have hfHpos : (0:ℚ) < fH := by rw [hfH2]; linarith
    have hscnn : 0 ≤ sc := by
      rw [hsc, mul_one]
      exact le_min (le_of_lt (div_pos hfWpos hrWpos)) (le_of_lt (div_pos hfHpos hrHpos))
    have hscW : rW * sc ≤ fW := by
      rw [hsc, mul_one]
      have h1 : min (fW / rW) (fH / rH) ≤ fW / rW := min_le_left _ _
      calc rW * min (fW / rW) (fH / rH) ≤ rW * (fW / rW) := by
            exact mul_le_mul_of_nonneg_left h1 (le_of_lt hrWpos)
        _ = fW := by field_simp
    have hscH : rH * sc ≤ fH := by
      rw [hsc, mul_one]
      have h1 : min (fW / rW) (fH / rH) ≤ fH / rH := min_le_right _ _
      calc rH * min (fW / rW) (fH / rH) ≤ rH * (fH / rH) := by
            exact mul_le_mul_of_nonneg_left h1 (le_of_lt hrHpos)
        _ = fH := by field_simp
    have hp1 : 0 ≤ (s.x - mnX) * sc := mul_nonneg (by linarith) hscnn
    have hp2 : (s.x - mnX) * sc ≤ rW * sc :=
      mul_le_mul_of_nonneg_right (by linarith) hscnn
    have hq1 : 0 ≤ (mxY - s.y) * sc := mul_nonneg (by linarith) hscnn
    have hq2 : (mxY - s.y) * sc ≤ rH * sc :=
      mul_le_mul_of_nonneg_right (by linarith) hscnn
    refine ⟨by linarith, by linarith, by linarith, by linarith⟩

/-- C5 counterexample: for a two-sample horizontal track on a 100×100
canvas with padding 10 on each side, zoom 1 and no pan, the sample at the
bounding-box maximum maps exactly onto the right padded edge x = 90, so
its screen coordinate is not strictly inside the padded rectangle. -/
theorem C5_counterexample_boundary :
    ((makeProjector [⟨0,0,none,0,0,none⟩, ⟨1,0,none,0,0,none⟩] 100 100 ⟨10,10,10,10⟩
        (0,0) 1).toXY (1, 0)).1 = 100 - 10 ∧
    ¬ (((makeProjector [⟨0,0,none,0,0,none⟩, ⟨1,0,none,0,0,none⟩] 100 100 ⟨10,10,10,10⟩
        (0,0) 1).toXY (1, 0)).1 < 100 - 10) := by
  constructor
  · norm_num [makeProjector, min_def, max_def]
  · norm_num [makeProjector, min_def, max_def]

/-- C5 witness: the first sample of the two-sample track maps into the
closed padded rectangle. -/
theorem C5_projector_bounds_witness :
    (10:ℚ) ≤ ((makeProjector [⟨0,0,none,0,0,none⟩, ⟨1,0,none,0,0,none⟩] 100 100 ⟨10,10,10,10⟩
        (0,0) 1).toXY ((0:ℚ), (0:ℚ))).1 ∧
    ((makeProjector [⟨0,0,none,0,0,none⟩, ⟨1,0,none,0,0,none⟩] 100 100 ⟨10,10,10,10⟩
        (0,0) 1).toXY ((0:ℚ), (0:ℚ))).1 ≤ 100 - 10 ∧
    (10:ℚ) ≤ ((makeProjector [⟨0,0,none,0,0,none⟩, ⟨1,0,none,0,0,none⟩] 100 100 ⟨10,10,10,10⟩
        (0,0) 1).toXY ((0:ℚ), (0:ℚ))).2 ∧
    ((makeProjector [⟨0,0,none,0,0,none⟩, ⟨1,0,none,0,0,none⟩] 100 100 ⟨10,10,10,10⟩
        (0,0) 1).toXY ((0:ℚ), (0:ℚ))).2 ≤ 100 - 10 :=
  C5_projector_bounds [⟨0,0,none,0,0,none⟩, ⟨1,0,none,0,0,none⟩] 100 100 ⟨10,10,10,10⟩
    (by simp) (by norm_num) (by norm_num) ⟨0,0,none,0,0,none⟩ (List.mem_cons_self _ _)

/-! ### Frame rendering plan (`drawFrame`) -/

/-- What kind of frame `drawFrame` draws: a placeholder when there are no
samples, otherwise the route frame. -/
inductive FrameKind where
  | placeholder : FrameKind
  | route : FrameKind
  deriving DecidableEq, Repr

/-- The branch of `drawFrame` on empty samples: draw the upload prompt and
return without any route geometry. -/
def drawFrameKind (samples : List ProjPt) : FrameKind :=
  match samples with
  | [] => FrameKind.placeholder
  | _ => FrameKind.route

/-- The comet-head index
(`upto = Math.max(1, Math.floor(progress01 * (samples.length - 1)))`). -/
def cometUpto (n : ℕ) (p : ℚ) : ℕ :=
  (max 1 ⌊p * ((n : ℚ) - 1)⌋).toNat

/-- The sample indices traversed by the comet-head partial route
(`for (let i = 0; i <= upto; i++)`); the glowing marker is drawn at
`samples[upto]`, i.e. at index `cometUpto n p`. -/
def drawnCometIndices (n : ℕ) (p : ℚ) : List ℕ :=
  List.range (cometUpto n p + 1)

/-- C4 (amended): for a track of n ≥ 2 samples and progress p in [0,1],
the comet head draws the route up to index max(1, floor(p·(n−1))) — not
floor(p·(n−1)) — the glowing marker sits at that same index, and the
index stays within the sample range. -/
theorem C4_comet_head (n : ℕ) (p : ℚ) (hn : 2 ≤ n) (h0 : 0 ≤ p) (h1 : p ≤ 1) :
    drawnCometIndices n p = List.range ((max 1 ⌊p * ((n : ℚ) - 1)⌋).toNat + 1) ∧
    cometUpto n p = (max 1 ⌊p * ((n : ℚ) - 1)⌋).toNat ∧
    cometUpto n p ≤ n - 1 := by
  refine ⟨rfl, rfl, ?_⟩
  have hn1 : (0:ℚ) ≤ (n:ℚ) - 1 := by
    have : (2:ℚ) ≤ (n:ℚ) := by exact_mod_cast hn
    linarith
  have hmul : p * ((n:ℚ) - 1) ≤ (n:ℚ) - 1 := by nlinarith
  have hfl : ⌊p * ((n:ℚ) - 1)⌋ ≤ (n:ℤ) - 1 := by
    calc ⌊p * ((n:ℚ) - 1)⌋ ≤ ⌊(n:ℚ) - 1⌋ := Int.floor_le_floor hmul
      _ = (n:ℤ) - 1 := by
          rw [show ((n:ℚ) - 1) = (((n:ℤ) - 1 : ℤ) : ℚ) by push_cast; ring, Int.floor_intCast]
  have hmax : max 1 ⌊p * ((n:ℚ) - 1)⌋ ≤ (n:ℤ) - 1 := by
    apply max_le _ hfl
    omega
  unfold cometUpto
  omega

/-- C4 witness: a five-sample track at three-quarters progress. -/
theorem C4_comet_head_witness :
    drawnCometIndices 5 (3/4) = List.range ((max 1 ⌊(3/4 : ℚ) * ((5:ℚ) - 1)⌋).toNat + 1) ∧
    cometUpto 5 (3/4) = (max 1 ⌊(3/4 : ℚ) * ((5:ℚ) - 1)⌋).toNat ∧
    cometUpto 5 (3/4) ≤ 5 - 1 :=
  C4_comet_head 5 (3/4) (by norm_num) (by norm_num) (by norm_num)

/-- C4 counterexample: at progress 0 on a five-sample track the claimed
comet index is floor(0·(5−1)) = 0, but the code clamps with max(1, ·) and
draws up to index 1 with the marker at index 1, not 0. -/
theorem C4_counterexample_progress_zero :
    cometUpto 5 0 = 1 ∧
    cometUpto 5 0 ≠ (⌊(0:ℚ) * ((5:ℚ) - 1)⌋).toNat ∧
    drawnCometIndices 5 0 ≠ [0] := by
  have h : cometUpto 5 0 = 1 := by
    norm_num [cometUpto]
  refine ⟨h, ?_, ?_⟩
  · rw [h]
    norm_num
  · unfold drawnCometIndices
    rw [h]
    decide

/-! ### File-load pipeline (`onFile`) -/

/-- Finiteness of a coordinate: in the rational embedding every value is
finite (`isFinite` in the source filters NaN/infinite floats, which have
no counterpart here). -/
def isFiniteNum (_ : ℚ) : Bool := true

/-- Outcome of loading a file: an explicit insufficient-data status (with
the message shown), or a loaded sample sequence. -/
inductive LoadOutcome where
  | insufficient (msg : String) : LoadOutcome
  | loaded (samples : List ProjPt) : LoadOutcome

/-- The cleaning stage of `onFile`: smoothing, spike rejection, then
privacy trimming gated on `privacyM > 0 && pts.length > 50`. -/
noncomputable def cleanedOf (parsed : List Pt) (privacyM : ℝ) : List Pt :=
  let b := removeSpikes (smoothElev parsed 7) none
  if 0 < privacyM ∧ 50 < b.length then trimPrivacy b privacyM else b

/-- The load pipeline of `onFile` after parsing: clean, check for at
least 2 usable points, resample at the configured rate, drop non-finite
coordinates, and check for at least 2 drawable samples. -/
noncomputable def loadResult (parsed : List Pt) (privacyM : ℝ)
    (fps durationSec : ℚ) : LoadOutcome :=
  let pts := cleanedOf parsed privacyM
  if pts.length < 2 then LoadOutcome.insufficient "This GPX has too few usable points."
  else
    let smp := (resample pts fps durationSec).filter
      (fun p => isFiniteNum p.x && isFiniteNum p.y)
    if smp.length < 2 then LoadOutcome.insufficient "No drawable points in this GPX."
    else LoadOutcome.loaded smp

/-- The sample sequence the UI keeps after `onFile`: empty on an
insufficient-data outcome (`setSamples([])`). -/
def samplesOf : LoadOutcome → List ProjPt
  | LoadOutcome.insufficient _ => []
  | LoadOutcome.loaded s => s

/-- C10: privacy trimming runs only when the trim distance is positive
and the cleaned track has strictly more than 50 points; with 50 or fewer
points the sequence passed onward is the untrimmed spike-rejection
output, whatever the privacy setting. -/
theorem C10_privacy_gate (parsed : List Pt) (privacyM : ℝ) :
    ((removeSpikes (smoothElev parsed 7) none).length ≤ 50 ∨ privacyM ≤ 0 →
      cleanedOf parsed privacyM = removeSpikes (smoothElev parsed 7) none) ∧
    (0 < privacyM → 50 < (removeSpikes (smoothElev parsed 7) none).length →
      cleanedOf parsed privacyM =
        trimPrivacy (removeSpikes (smoothElev parsed 7) none) privacyM) := by
  constructor
  · intro h
    unfold cleanedOf
    rw [if_neg]
    intro hc
    rcases h with h | h
    · omega
    · linarith [hc.1]
  · intro h1 h2
    unfold cleanedOf
    rw [if_pos ⟨h1, h2⟩]

/-- C10 witness: an empty parsed track is passed through untrimmed even
with a positive privacy distance. -/
theorem C10_privacy_gate_witness :
    cleanedOf [] 1 = removeSpikes (smoothElev [] 7) none :=
  (C10_privacy_gate [] 1).1 (Or.inl (by simp [smoothElev, removeSpikes]))

/-- C8: a document with no trackpoints and no routepoints parses to the
empty sequence (no exception), and whenever fewer than 2 usable points
remain after cleaning or resampling, the pipeline reports an explicit
insufficient-data outcome, the kept sample sequence is empty, and the
renderer draws the placeholder frame instead of route geometry. -/
theorem C8_insufficient_data (now : ℤ) (parsed : List Pt) (privacyM : ℝ)
    (fps durationSec : ℚ) :
    parseGpxModel [] [] now = [] ∧
    ((cleanedOf parsed privacyM).length < 2 ∨
        ((resample (cleanedOf parsed privacyM) fps durationSec).filter
          (fun p => isFiniteNum p.x && isFiniteNum p.y)).length < 2 →
      (∃ msg, loadResult parsed privacyM fps durationSec = LoadOutcome.insufficient msg) ∧
      samplesOf (loadResult parsed privacyM fps durationSec) = [] ∧
      drawFrameKind (samplesOf (loadResult parsed privacyM fps durationSec)) =
        FrameKind.placeholder) := by
  refine ⟨rfl, fun h => ?_⟩
  unfold loadResult
  by_cases h1 : (cleanedOf parsed privacyM).length < 2
  · rw [if_pos h1]
    exact ⟨⟨_, rfl⟩, rfl, rfl⟩
  · rw [if_neg h1]
    have h2 : ((resample (cleanedOf parsed privacyM) fps durationSec).filter
        (fun p => isFiniteNum p.x && isFiniteNum p.y)).length < 2 := by
      rcases h with h | h
      · exact absurd h h1
      · exact h
    rw [if_pos h2]
    exact ⟨⟨_, rfl⟩, rfl, rfl⟩

/-- C8 witness: an empty parsed track yields the insufficient-data
outcome and the placeholder frame. -/
theorem C8_insufficient_data_witness :
    parseGpxModel [] [] 0 = [] ∧
    (∃ msg, loadResult [] 0 30 20 = LoadOutcome.insufficient msg) ∧
    samplesOf (loadResult [] 0 30 20) = [] ∧
    drawFrameKind (samplesOf (loadResult [] 0 30 20)) = FrameKind.placeholder :=
  ⟨(C8_insufficient_data 0 [] 0 30 20).1,
   (C8_insufficient_data 0 [] 0 30 20).2
     (Or.inl (by simp [cleanedOf, smoothElev, removeSpikes]))⟩

/-! ### Export pipeline (`exportMp4` and `cancelExport`) -/

/-- Outcome reported by the export pipeline: the three distinct branches
of its status handling ("Export complete", "Export canceled.",
"Export failed: ..."). -/
inductive ExportOutcome where
  | complete : ExportOutcome
  | canceled : ExportOutcome
  | failed (msg : String) : ExportOutcome
  deriving DecidableEq, Repr

/-- The frame-preparation loop of `exportMp4`: before each frame a
cooperative abort check reads `abortRef.current` (modelled by
`abortAt i` at iteration `i`) and throws the Canceled error; otherwise
frame `i` is rendered and written.  Returns the indices written and
whether the Canceled error was thrown. -/
def exportFrames (totalFrames : ℕ) (abortAt : ℕ → Bool) : ℕ → List ℕ × Bool
  | i =>
    if i < totalFrames then
      if abortAt i then ([], true)
      else
        let r := exportFrames totalFrames abortAt (i + 1)
        (i :: r.1, r.2)
    else ([], false)
termination_by i => totalFrames - i
decreasing_by omega

/-- The whole export operation: run the frame loop from index 0; a thrown
Canceled error is caught as the distinct canceled outcome, an encoder
failure as the failed outcome, otherwise the export completes. -/
def exportMp4Model (totalFrames : ℕ) (abortAt : ℕ → Bool)
    (encodeFail : Option String) : List ℕ × ExportOutcome :=
  let r := exportFrames totalFrames abortAt 0
  if r.2 then (r.1, ExportOutcome.canceled)
  else
    match encodeFail with
    | some e => (r.1, ExportOutcome.failed e)
    | none => (r.1, ExportOutcome.complete)

theorem exportFrames_cancel (totalFrames k : ℕ) (abortAt : ℕ → Bool)
    (hk : k < totalFrames) (hbefore : ∀ j, j < k → abortAt j = false)
    (hat : abortAt k = true) :
    ∀ m i, i + m = k →
      exportFrames totalFrames abortAt i = (List.range' i m, true) := by
  intro m
  induction m with
  | zero =>
    intro i hi
    rw [exportFrames]
    have hik : i = k := by omega
    rw [if_pos (by omega), hik, hat]
    rfl
  | succ n ih =>
    intro i hi
    rw [exportFrames]
    rw [if_pos (by omega)]
    rw [hbefore i (by omega)]
    simp only [Bool.false_eq_true, if_false]
    rw [ih (i + 1) (by omega)]
    rfl

/-- C7: if cancellation is requested before frame k of the export (the
abort flag first reads true at the check preceding frame k), the loop
writes exactly frames 0..k−1, renders no further frame, and the reported
outcome is the distinct canceled status, never the failed status used for
other errors. -/
theorem C7_export_cancellation (totalFrames k : ℕ) (abortAt : ℕ → Bool)
    (encodeFail : Option String) (hk : k < totalFrames)
    (hbefore : ∀ j, j < k → abortAt j = false) (hat : abortAt k = true) :
    (exportMp4Model totalFrames abortAt encodeFail).1 = List.range k ∧
    (exportMp4Model totalFrames abortAt encodeFail).2 = ExportOutcome.canceled ∧
    ∀ e, (exportMp4Model totalFrames abortAt encodeFail).2 ≠ ExportOutcome.failed e := by
  have hrun := exportFrames_cancel totalFrames k abortAt hk hbefore hat k 0 (by omega)
  unfold exportMp4Model
  rw [hrun]
  exact ⟨(List.range_eq_range' k).symm, rfl, fun e h => ExportOutcome.noConfusion h⟩

/-- C7 witness: cancellation requested at the check before frame 5 of a
30-frame export writes frames 0..4 and reports the canceled outcome. -/
theorem C7_export_cancellation_witness :
    (exportMp4Model 30 (fun i => decide (5 <= i)) none).1 = List.range 5 ∧
    (exportMp4Model 30 (fun i => decide (5 <= i)) none).2 = ExportOutcome.canceled ∧
    ∀ e, (exportMp4Model 30 (fun i => decide (5 <= i)) none).2 ≠ ExportOutcome.failed e :=
  C7_export_cancellation 30 5 (fun i => decide (5 <= i)) none (by norm_num)
    (fun j hj => decide_eq_false (by omega)) (by decide)

end RouteAnim
